import Mathlib

/-!
Verification of the `Fuzz` pass (`src/passes/Fuzz.cpp`) of the binaryen
repository: a deterministic expression fuzzer that walks every function body
and, with small probability, replaces each visited node by a freshly
synthesized expression of the same static type.

The development is a shallow embedding of the pass.  The pass object's mutable
members (`noise`, `limit`, `names`, `nextName` and the walker's
`controlFlowStack`) become an explicit state record that every embedded
function threads through.  The `std::mt19937 noise` generator is modelled by
its output stream: the `draws` field lists the successive values of `noise()`.
`Index` is binaryen's 32-bit unsigned integer type, so the `--limit`
decrement is modelled as a wrapping decrement modulo 2^32.

The mutual recursion of the node creators is not structurally terminating
(indeed one of the claims under audit is exactly about its termination), so
the creators take an explicit fuel argument; a result of `Option.none` means
the interpreter ran out of fuel and is distinct from every behaviour of the
embedded code.

Two constructors of `Expression` model ill-formed spots of the source text:
`Expression.strLit` stands for the `return "get_local"`-style branches of
`makeInt32` (a string literal where an `Expression*` is expected), and
`Expression.undef` stands for the unspecified value produced when control
falls off the end of the value-returning function `make` after its
`switch` (every arm of that `switch` ends in `break`, not `return`).
-/

namespace wasm

/-- The `WasmType` enumeration of the host IR: the static result types
`{i32, i64, f32, f64, none, unreachable}` used by `Fuzz.cpp`. -/
inductive WasmType where
  | i32
  | i64
  | f32
  | f64
  | none
  | unreachable
deriving DecidableEq

/-- Expression nodes, restricted to the node kinds the fuzzer builds or
inspects.  Each kind carries the fields `Fuzz.cpp` reads or writes: a
`Block` has an optional label, a declared type and a child list; a `Loop`
has an optional label and a body; a `Break` has a target label and optional
value and condition children; the call kinds carry the callee, the argument
list, and the declared result type.  `Const` stands for the leaf constants
of the modelled numeric creators.  `strLit` and `undef` model ill-formed
source spots as described in the file header. -/
inductive Expression where
  | Unreachable
  | Nop
  | Const (ty : WasmType)
  | Block (name : Option String) (ty : WasmType) (list : List Expression)
  | Loop (name : Option String) (body : Expression)
  | If (condition ifTrue ifFalse : Expression)
  | Break (target : String) (value : Option Expression) (condition : Option Expression)
  | Call (target : String) (args : List Expression) (ty : WasmType)
  | CallImport (target : String) (args : List Expression) (ty : WasmType)
  | CallIndirect (fnType : Option String) (target : Expression) (args : List Expression)
      (ty : WasmType)
  | strLit (s : String)
  | undef

/-- A scope sitting on the walker's `controlFlowStack`.  The source keeps
`Expression*` pointers and distinguishes `Block` from `Loop` by `dynCast`;
we keep the tag and the two fields `getBreakTarget` reads (the optional
label, and for blocks the declared type).  The source's `Name()`/`name.is()`
pattern (a name that may be unset) is an `Option String` here. -/
inductive Scope where
  | block (name : Option String) (ty : WasmType)
  | loop (name : Option String)
deriving DecidableEq

/-- The label carried by a scope, when set. -/
def Scope.scopeName : Scope → Option String
  | Scope.block n _ => n
  | Scope.loop n => n

/-- The static type of an expression node (the `type` field binaryen stores
on every `Expression`).  `Block` and the call nodes store the type the
creator assigned; `Unreachable` has type `unreachable`; `Nop` has type
`none`.  The `finalize` routines of `wasm.h` are not part of the excerpt,
so for `Loop`, `If` and `Break` we model the evident rules (spec §4.5: a
loop's value is the value of its single body expression); no claim below
depends on those three cases.  The ill-formed results `strLit` and `undef`
are not expression nodes and have no static type. -/
def tyOf : Expression → Option WasmType
  | Expression.Unreachable => some WasmType.unreachable
  | Expression.Nop => some WasmType.none
  | Expression.Const t => some t
  | Expression.Block _ t _ => some t
  | Expression.Loop _ b => tyOf b
  | Expression.If _ t _ => tyOf t
  | Expression.Break _ _ c =>
      if c.isSome then some WasmType.none else some WasmType.unreachable
  | Expression.Call _ _ t => some t
  | Expression.CallImport _ _ t => some t
  | Expression.CallIndirect _ _ _ t => some t
  | Expression.strLit _ => Option.none
  | Expression.undef => Option.none

/-- A module-local function, as read by `makeCall`/`makeCallIndirect`:
its name, parameter types, result type, and (for indirect calls) the
optional name of its declared function type (`func->type`). -/
structure Function where
  name : String
  params : List WasmType
  result : WasmType
  type_ : Option String
deriving DecidableEq

/-- The kind of an import; `makeCallImport` skips every import whose kind
is not `Function`. -/
inductive ImportKind where
  | Function
  | Other
deriving DecidableEq

/-- An import, as read by `makeCallImport`: its kind, its name, and its
function type's parameter and result types (`import->functionType`). -/
structure Import where
  kind : ImportKind
  name : String
  params : List WasmType
  result : WasmType
deriving DecidableEq

/-- The module's function table, as read by `makeCallIndirect`: whether it
exists, and its segments, each an ordered list of function names
(`segment.data`). -/
structure Table where
  exists_ : Bool
  segments : List (List String)
deriving DecidableEq

/-- The host module, as read through `getModule()`: the module-local
functions, the imports and the table. -/
structure Module where
  functions : List Function
  imports : List Import
  table : Table
deriving DecidableEq

/-- `getModule()->getFunction(name)`: look a function up by name. -/
def Module.getFunction (m : Module) (name : String) : Option Function :=
  m.functions.find? (fun f => f.name = name)

/-- The mutable state of one `Fuzz` pass run.
`draws` is the remaining output stream of the `std::mt19937 noise` member
(modelled stream; an exhausted list yields 0).  `limit` is the `Index limit`
budget member.  `names` is the label set of the `NameCollector names` member
(a list used as a set; scanning may record duplicates, membership is what
matters).  `nextName` is the fresh-name counter.  `stack` is the walker's
`controlFlowStack`, innermost scope last, exactly like the source's
`std::vector`.  `steps` is a ghost counter, not present in the source: it
counts entries into node-creating functions, and exists only to state the
termination claims about the budget. -/
structure FuzzState where
  draws : List Nat
  limit : Nat
  names : List String
  nextName : Nat
  stack : List Scope
  steps : Nat
deriving DecidableEq

/-- One call of `noise()`: the next value of the modelled stream. -/
def draw (s : FuzzState) : Nat × FuzzState :=
  (s.draws.headD 0, { s with draws := s.draws.tail })

/-- `bool chance(int percentage) { return (noise() % 100) < percentage; }` -/
def chance (percentage : Nat) (s : FuzzState) : Bool × FuzzState :=
  let p := draw s
  (decide (p.1 % 100 < percentage), p.2)

/-- `bool pick(int max) { return noise() % max; }`
The source declares the return type `bool`, so the draw reduced modulo
`max` is collapsed to `false` (zero) or `true` (nonzero); every call site
then converts the `bool` back to the integer 0 or 1.  The source expression
is undefined for `max == 0`; no call site passes 0 (each is guarded by an
emptiness check), and the model's `Nat.mod _ 0` never decides that case. -/
def pick (max : Nat) (s : FuzzState) : Bool × FuzzState :=
  let p := draw s
  (decide (p.1 % max ≠ 0), p.2)

/-- `A limit on how many new nodes to create per function`:
`static const int LIMIT = 1000`. -/
def LIMIT : Nat := 1000

/-- The wrapping decrement `--limit` on binaryen's 32-bit unsigned `Index`:
decrementing 0 wraps to 2^32 - 1. -/
def decWrap (n : Nat) : Nat :=
  if n = 0 then 4294967295 else n - 1

/-- `k` iterations of the wrapping decrement. -/
def decWrapIter : Nat → Nat → Nat
  | 0, n => n
  | k + 1, n => decWrapIter k (decWrap n)

/-- The state effect of `--limit` at the entry of a node creator, together
with the ghost step count. -/
def consume (s : FuzzState) : FuzzState :=
  { s with limit := decWrap s.limit, steps := s.steps + 1 }

/-- The ghost step count alone, for the node creators that do not touch
`limit` (`makeBlock`, `makeLoop`, `makeBreak` and the call creators create
nodes through the `Builder` without decrementing the budget). -/
def stepBump (s : FuzzState) : FuzzState :=
  { s with steps := s.steps + 1 }

/-- `controlFlowStack.push_back`: the vector grows at the end, so the
innermost scope is the last element. -/
def pushScope (sc : Scope) (s : FuzzState) : FuzzState :=
  { s with stack := s.stack ++ [sc] }

/-- `controlFlowStack.pop_back`. -/
def popScope (s : FuzzState) : FuzzState :=
  { s with stack := s.stack.dropLast }

/-- The state constructed by `Fuzz() : noise(42), limit(LIMIT) {}`: the
budget is initialized to `LIMIT` once, at pass construction; `names`,
`nextName` and the walker stack start empty.  The fixed seed 42 means the
generator's output stream is one fixed sequence; the model takes that
stream as the parameter `ds`. -/
def initState (ds : List Nat) : FuzzState :=
  { draws := ds, limit := LIMIT, names := [], nextName := 0, stack := [], steps := 0 }

/-- `Name getNewName()`: candidates `"fuzz$" + <counter>` are tried for
increasing counter values until one is absent from `names`; the winner is
inserted into `names` before being returned.  (The source writes the
nonexistent `std::from_string`; the evident intent, `std::to_string`, is
modelled.)  The source's `while (1)` loop becomes fuel recursion; callers
pass fuel `names.length + 1`, which in fact always suffices because
distinct counters give distinct candidate strings. -/
def getNewName : Nat → FuzzState → Option (String × FuzzState)
  | 0, _ => Option.none
  | fuel + 1, s =>
      let name := "fuzz$" ++ toString s.nextName
      let s1 : FuzzState := { s with nextName := s.nextName + 1 }
      if name ∈ s1.names then getNewName fuel s1
      else some (name, { s1 with names := name :: s1.names })

/-- The blocks collected by `getBreakTarget`: every stack scope that is a
`Block` with a set name and, when breaking with a value, whose declared
type equals the value's type (`value ? value->type == block->type : true`). -/
def breakBlocks (value : Option Expression) (stack : List Scope) : List Scope :=
  stack.filter fun sc =>
    match sc with
    | Scope.block (some _) bty =>
        match value with
        | some v => decide (tyOf v = some bty)
        | Option.none => true
    | _ => false

/-- The loops collected by `getBreakTarget`: every stack scope that is a
`Loop` with a set name, admissible only for a value-less break
(`loop->name.is() && !value`). -/
def breakLoops (value : Option Expression) (stack : List Scope) : List Scope :=
  stack.filter fun sc =>
    match sc, value with
    | Scope.loop (some _), Option.none => true
    | _, _ => false

/-- `Name getBreakTarget(Expression* value)`: collect the admissible blocks
and loops off the control-flow stack; if both lists are empty return the
unset name without drawing; otherwise draw one `pick` over the pooled list,
blocks first.  `auto choice = pick(...)` makes `choice` a `bool`, so the
index is its integer value 0 or 1 (provably in range, see the lemmas
below); `List.getD` supplies an irrelevant default. -/
def getBreakTarget (value : Option Expression) (s : FuzzState) :
    Option String × FuzzState :=
  let blocks := breakBlocks value s.stack
  let loops := breakLoops value s.stack
  if blocks.length + loops.length = 0 then (Option.none, s)
  else
    match pick (blocks.length + loops.length) s with
    | (b, s1) =>
        if b.toNat < blocks.length then
          ((blocks.getD b.toNat (Scope.loop Option.none)).scopeName, s1)
        else
          ((loops.getD (b.toNat - blocks.length) (Scope.loop Option.none)).scopeName, s1)

/-- `Expression* makeBreak(Expression* value, Expression* condition)`:
resolve a target for the (always present) value; if one is found build a
`Break` carrying the value and the condition, otherwise fall back to
`builder.makeUnreachable()`. -/
def makeBreak (value condition : Expression) (s : FuzzState) :
    Expression × FuzzState :=
  let s1 := stepBump s
  match getBreakTarget (some value) s1 with
  | (some t, s2) => (Expression.Break t (some value) (some condition), s2)
  | (Option.none, s2) => (Expression.Unreachable, s2)

/-- Modelled from the spec: `makeNone` is called at `Fuzz.cpp:80` and
`Fuzz.cpp:127` but not defined in the excerpt.  Per §4.4 every
node-creation entry point consumes the budget first and short-circuits to
a terminal unreachable node on exhaustion; per §4.5 the `none` dispatch
produces a node from the no-value family, of which the model takes the
simplest representative, `nop`. -/
def makeNone (s : FuzzState) : Expression × FuzzState :=
  let s1 := consume s
  if s1.limit = 0 then (Expression.Unreachable, s1) else (Expression.Nop, s1)

/-- Modelled from the spec: `makeInt64` is called at `Fuzz.cpp:77` but not
defined in the excerpt.  Per §4.4 it consumes the budget first; otherwise
the model returns the constant-leaf alternative of §4.5 at type `i64`. -/
def makeInt64 (s : FuzzState) : Expression × FuzzState :=
  let s1 := consume s
  if s1.limit = 0 then (Expression.Unreachable, s1)
  else (Expression.Const WasmType.i64, s1)

/-- Modelled from the spec: `makeFloat32` is called at `Fuzz.cpp:78` but not
defined in the excerpt; same shape as `makeInt64` at type `f32`. -/
def makeFloat32 (s : FuzzState) : Expression × FuzzState :=
  let s1 := consume s
  if s1.limit = 0 then (Expression.Unreachable, s1)
  else (Expression.Const WasmType.f32, s1)

/-- Modelled from the spec: `makeFloat64` is called at `Fuzz.cpp:79` but not
defined in the excerpt; same shape as `makeInt64` at type `f64`. -/
def makeFloat64 (s : FuzzState) : Expression × FuzzState :=
  let s1 := consume s
  if s1.limit = 0 then (Expression.Unreachable, s1)
  else (Expression.Const WasmType.f64, s1)

/-- Modelled from the spec: the member `makeUnreachable` called at
`Fuzz.cpp:81` is not defined in the excerpt (the `builder.makeUnreachable()`
calls elsewhere are the Builder's, modelled as the `Unreachable`
constructor).  Per §4.4 it consumes the budget; the `unreachable` dispatch
returns a terminal node either way (§4.5 step 3). -/
def makeUnreachable (s : FuzzState) : Expression × FuzzState :=
  (Expression.Unreachable, consume s)

/-- The statement loop of `makeBlock`: `for (i = 0; i < size - 1; i++)
ret->list[i] = makeNone();` building the first `k` children. -/
def makeNones : Nat → FuzzState → List Expression × FuzzState
  | 0, s => ([], s)
  | k + 1, s =>
      match makeNone s with
      | (e, s1) =>
          match makeNones k s1 with
          | (rest, s2) => (e :: rest, s2)

/-- `Expression::NumExpressionIds`.  The enumeration itself lives in the
missing `wasm.h`; the numbering used here is the order of the `case` labels
of `makeInt32`'s `switch` (`InvalidId = 0`, `BlockId = 1`, `IfId = 2`,
`LoopId = 3`, `BreakId = 4`, `SwitchId = 5`, `CallId = 6`,
`CallImportId = 7`, `CallIndirectId = 8`, then the leaf kinds, with
`UnreachableId = 23`). -/
def NumExpressionIds : Nat := 24

mutual

/-- `Expression* make(WasmType type)` (`Fuzz.cpp:69-84`).  First
`if (--limit == 0) return builder.makeUnreachable();`, then a 5% chance of
returning an unreachable node regardless, then the dispatch on the required
type.  Each dispatch arm executes `replaceCurrent(makeX());` followed by
`break;` — the side effects of the recursive creator happen, its result is
handed to the walker's replacement hook, and then control falls off the end
of the value-returning function: the value `make` itself returns is
unspecified, modelled by `Expression.undef`. -/
def make (m : Module) : Nat → WasmType → FuzzState → Option (Expression × FuzzState)
  | 0, _, _ => Option.none
  | fuel + 1, ty, s =>
      let s1 := consume s
      if s1.limit = 0 then some (Expression.Unreachable, s1)
      else
        match chance 5 s1 with
        | (true, s2) => some (Expression.Unreachable, s2)
        | (false, s2) =>
            match ty with
            | WasmType.i32 =>
                match makeInt32 m fuel s2 with
                | Option.none => Option.none
                | some (_, s3) => some (Expression.undef, s3)
            | WasmType.i64 =>
                match makeInt64 s2 with
                | (_, s3) => some (Expression.undef, s3)
            | WasmType.f32 =>
                match makeFloat32 s2 with
                | (_, s3) => some (Expression.undef, s3)
            | WasmType.f64 =>
                match makeFloat64 s2 with
                | (_, s3) => some (Expression.undef, s3)
            | WasmType.none =>
                match makeNone s2 with
                | (_, s3) => some (Expression.undef, s3)
            | WasmType.unreachable =>
                match makeUnreachable s2 with
                | (_, s3) => some (Expression.undef, s3)

/-- `Expression* makeInt32()` (`Fuzz.cpp:86-116`).  After the budget check,
`switch (pick(Expression::NumExpressionIds))` dispatches on the `bool`
returned by `pick`, i.e. on the integer 0 or 1; the remaining `case` labels
of the source are kept (cases 2-23 below) but are unreachable.  The
argument lists of `builder.makeIf` (with the source's own `XXX order of
operations` remark) and of `makeBreak` are evaluated left to right in the
model; C++ leaves that order unspecified.  Cases 9-22 return raw string
literals in the source, modelled by `Expression.strLit`; the final
catch-all models `WASM_UNREACHABLE()` and cannot be reached because the
scrutinee is at most 1. -/
def makeInt32 (m : Module) : Nat → FuzzState → Option (Expression × FuzzState)
  | 0, _ => Option.none
  | fuel + 1, s =>
      let s1 := consume s
      if s1.limit = 0 then some (Expression.Unreachable, s1)
      else
        match pick NumExpressionIds s1 with
        | (b, s2) =>
            match b.toNat with
            | 0 => some (Expression.Unreachable, s2)
            | 1 => makeBlock m fuel WasmType.i32 s2
            | 2 =>
                match makeInt32 m fuel s2 with
                | Option.none => Option.none
                | some (c, s3) =>
                    match makeInt32 m fuel s3 with
                    | Option.none => Option.none
                    | some (t, s4) =>
                        match makeInt32 m fuel s4 with
                        | Option.none => Option.none
                        | some (e, s5) => some (Expression.If c t e, s5)
            | 3 => makeLoop m fuel WasmType.i32 s2
            | 4 =>
                match makeInt32 m fuel s2 with
                | Option.none => Option.none
                | some (v, s3) =>
                    match makeInt32 m fuel s3 with
                    | Option.none => Option.none
                    | some (c, s4) => some (makeBreak v c s4)
            | 5 => some (Expression.Unreachable, s2)
            | 6 => makeCall m fuel WasmType.i32 s2
            | 7 => makeCallImport m fuel WasmType.i32 s2
            | 8 => makeCallIndirect m fuel WasmType.i32 s2
            | 9 => some (Expression.strLit "get_local", s2)
            | 10 => some (Expression.strLit "set_local", s2)
            | 11 => some (Expression.strLit "get_global", s2)
            | 12 => some (Expression.strLit "set_global", s2)
            | 13 => some (Expression.strLit "load", s2)
            | 14 => some (Expression.strLit "store", s2)
            | 15 => some (Expression.strLit "const", s2)
            | 16 => some (Expression.strLit "unary", s2)
            | 17 => some (Expression.strLit "binary", s2)
            | 18 => some (Expression.strLit "select", s2)
            | 19 => some (Expression.strLit "drop", s2)
            | 20 => some (Expression.strLit "return", s2)
            | 21 => some (Expression.strLit "host", s2)
            | 22 => some (Expression.strLit "nop", s2)
            | 23 => some (Expression.Unreachable, s2)
            | _ => some (Expression.undef, s2)

/-- `Expression* makeBlock(WasmType type)` (`Fuzz.cpp:118-132`): build a
block node (no budget decrement), give it a fresh name and the required
type, push it onto the control-flow stack, generate `pick(5) + 1` children
of which all but the last are `makeNone()` and the last is `make(type)`,
pop, and return the block.  (The source pushes `ret->name` into the stack
of expression pointers; the model pushes the block's scope — the tag, name
and type `getBreakTarget` reads.) -/
def makeBlock (m : Module) : Nat → WasmType → FuzzState → Option (Expression × FuzzState)
  | 0, _, _ => Option.none
  | fuel + 1, ty, s =>
      let s1 := stepBump s
      match getNewName (s1.names.length + 1) s1 with
      | Option.none => Option.none
      | some (name, s2) =>
          let s3 := pushScope (Scope.block (some name) ty) s2
          match pick 5 s3 with
          | (b, s4) =>
              let size := b.toNat + 1
              match makeNones (size - 1) s4 with
              | (front, s5) =>
                  match make m fuel ty s5 with
                  | Option.none => Option.none
                  | some (last, s6) =>
                      some (Expression.Block (some name) ty (front ++ [last]),
                        popScope s6)

/-- Modelled from the spec: `makeLoop` as the source writes it
(`Fuzz.cpp:134-141`) reads `ret->name` one line before `ret` is declared
and is ill-formed; per §4.5 step 5 the intended behaviour is to allocate a
fresh label, push a Loop scope bearing it, synthesize a single body
expression of the required type, pop the scope and return the loop. -/
def makeLoop (m : Module) : Nat → WasmType → FuzzState → Option (Expression × FuzzState)
  | 0, _, _ => Option.none
  | fuel + 1, ty, s =>
      let s1 := stepBump s
      match getNewName (s1.names.length + 1) s1 with
      | Option.none => Option.none
      | some (name, s2) =>
          let s3 := pushScope (Scope.loop (some name)) s2
          match make m fuel ty s3 with
          | Option.none => Option.none
          | some (body, s4) => some (Expression.Loop (some name) body, popScope s4)

/-- `Expression* makeCall(WasmType type)` (`Fuzz.cpp:150-165`): collect the
module-local functions whose result type equals the required type; if none,
fall back to unreachable; otherwise `funcs[pick(funcs.size())]` selects one
(a `bool` index, 0 or 1), one argument is synthesized per parameter in
declaration order, and the call node is built. -/
def makeCall (m : Module) : Nat → WasmType → FuzzState → Option (Expression × FuzzState)
  | 0, _, _ => Option.none
  | fuel + 1, ty, s =>
      let s1 := stepBump s
      let funcs := m.functions.filter fun f => decide (f.result = ty)
      if funcs.isEmpty then some (Expression.Unreachable, s1)
      else
        match pick funcs.length s1 with
        | (b, s2) =>
            let func := funcs.getD b.toNat
              { name := "", params := [], result := ty, type_ := Option.none }
            match makeArgs m fuel func.params s2 with
            | Option.none => Option.none
            | some (args, s3) => some (Expression.Call func.name args ty, s3)

/-- `Expression* makeCallImport(WasmType type)` (`Fuzz.cpp:167-183`): like
`makeCall` over the imports of kind `Function` whose function type's result
equals the required type. -/
def makeCallImport (m : Module) : Nat → WasmType → FuzzState → Option (Expression × FuzzState)
  | 0, _, _ => Option.none
  | fuel + 1, ty, s =>
      let s1 := stepBump s
      let imports := m.imports.filter fun i =>
        decide (i.kind = ImportKind.Function) && decide (i.result = ty)
      if imports.isEmpty then some (Expression.Unreachable, s1)
      else
        match pick imports.length s1 with
        | (b, s2) =>
            let imp := imports.getD b.toNat
              { kind := ImportKind.Function, name := "", params := [], result := ty }
            match makeArgs m fuel imp.params s2 with
            | Option.none => Option.none
            | some (args, s3) => some (Expression.CallImport imp.name args ty, s3)

/-- `Expression* makeCallIndirect(WasmType type)` (`Fuzz.cpp:185-205`): if
the table does not exist fall back to unreachable; collect, over all table
segments in order, the named functions whose result type equals the
required type and whose declared function type is set; if none, fall back;
otherwise select one (`bool` index again), synthesize the arguments in
declaration order, synthesize the `i32` target index, and build the node.
(Table entries are looked up with `getFunction`; entries naming no function
would be dereferenced unchecked by the source and are skipped here.) -/
def makeCallIndirect (m : Module) : Nat → WasmType → FuzzState → Option (Expression × FuzzState)
  | 0, _, _ => Option.none
  | fuel + 1, ty, s =>
      let s1 := stepBump s
      if !m.table.exists_ then some (Expression.Unreachable, s1)
      else
        let funcs := (m.table.segments.flatten).filterMap fun nm =>
          match m.getFunction nm with
          | some f =>
              if decide (f.result = ty) && f.type_.isSome then some f else Option.none
          | Option.none => Option.none
        if funcs.isEmpty then some (Expression.Unreachable, s1)
        else
          match pick funcs.length s1 with
          | (b, s2) =>
              let func := funcs.getD b.toNat
                { name := "", params := [], result := ty, type_ := Option.none }
              match makeArgs m fuel func.params s2 with
              | Option.none => Option.none
              | some (args, s3) =>
                  match makeInt32 m fuel s3 with
                  | Option.none => Option.none
                  | some (target, s4) =>
                      some (Expression.CallIndirect func.type_ target args ty, s4)

/-- The argument loop shared by the three call creators:
`for (auto param : func->params) args.push_back(make(param));`. -/
def makeArgs (m : Module) : Nat → List WasmType → FuzzState → Option (List Expression × FuzzState)
  | _, [], s => some ([], s)
  | 0, _ :: _, _ => Option.none
  | fuel + 1, p :: ps, s =>
      match make m fuel p s with
      | Option.none => Option.none
      | some (a, s1) =>
          match makeArgs m fuel ps s1 with
          | Option.none => Option.none
          | some (rest, s2) => some (a :: rest, s2)

end

mutual

/-- Modelled from the spec: the `NameCollector` of the missing `ast_utils.h`
"scans a function body once and records every label already in use" (§4.2).
`labelsOf` lists the labels defined on the blocks and loops of a tree, in
traversal order and with duplicates kept (§4.2: non-unique input names are
tolerated, not deduplicated away). -/
def labelsOf : Expression → List String
  | Expression.Block n _ ls => n.toList ++ labelsOfList ls
  | Expression.Loop n b => n.toList ++ labelsOf b
  | Expression.If c t e => labelsOf c ++ labelsOf t ++ labelsOf e
  | Expression.Break _ v c => labelsOfOpt v ++ labelsOfOpt c
  | Expression.Call _ args _ => labelsOfList args
  | Expression.CallImport _ args _ => labelsOfList args
  | Expression.CallIndirect _ t args _ => labelsOf t ++ labelsOfList args
  | _ => []

/-- Labels of a list of children. -/
def labelsOfList : List Expression → List String
  | [] => []
  | e :: rest => labelsOf e ++ labelsOfList rest

/-- Labels of an optional child. -/
def labelsOfOpt : Option Expression → List String
  | Option.none => []
  | some e => labelsOf e

end

/-- `void visitExpression(Expression* curr)` (`Fuzz.cpp:44-49`): with
probability `chance(5)` replace the current node by `make(curr->type)`;
otherwise leave it alone.  (Walked input trees consist of expression nodes,
which all have a static type; the `Option.none` branch is for the
ill-formed markers only and leaves the node alone.) -/
def visitExpression (m : Module) (fuel : Nat) (curr : Expression) (s : FuzzState) :
    Option (Expression × FuzzState) :=
  match chance 5 s with
  | (true, s1) =>
      match tyOf curr with
      | some t => make m fuel t s1
      | Option.none => some (curr, s1)
  | (false, s1) => some (curr, s1)

mutual

/-- Modelled from the spec: the traversal framework (`WalkerPass` over a
`ControlFlowWalker` with a `UnifiedExpressionVisitor`) lives outside the
excerpt.  Per §4.6 it drives a post-order traversal that visits every node
after its children, and per §3 the control-flow stack is maintained by
push-on-enter / pop-on-leave around each structured scope, so a block or
loop is on the stack while its subtree (and its own visit) is processed.
Each case walks the children left to right, visits the (rebuilt) node, and
returns the visitor's replacement. -/
def walk (m : Module) : Nat → Expression → FuzzState → Option (Expression × FuzzState)
  | 0, _, _ => Option.none
  | fuel + 1, e, s =>
      match e with
      | Expression.Block n ty ls =>
          let s1 := pushScope (Scope.block n ty) s
          match walkList m fuel ls s1 with
          | Option.none => Option.none
          | some (ls1, s2) =>
              match visitExpression m fuel (Expression.Block n ty ls1) s2 with
              | Option.none => Option.none
              | some (e1, s3) => some (e1, popScope s3)
      | Expression.Loop n b =>
          let s1 := pushScope (Scope.loop n) s
          match walk m fuel b s1 with
          | Option.none => Option.none
          | some (b1, s2) =>
              match visitExpression m fuel (Expression.Loop n b1) s2 with
              | Option.none => Option.none
              | some (e1, s3) => some (e1, popScope s3)
      | Expression.If c t e1 =>
          match walk m fuel c s with
          | Option.none => Option.none
          | some (c1, s1) =>
              match walk m fuel t s1 with
              | Option.none => Option.none
              | some (t1, s2) =>
                  match walk m fuel e1 s2 with
                  | Option.none => Option.none
                  | some (e2, s3) =>
                      visitExpression m fuel (Expression.If c1 t1 e2) s3
      | Expression.Break tgt v c =>
          match walkOpt m fuel v s with
          | Option.none => Option.none
          | some (v1, s1) =>
              match walkOpt m fuel c s1 with
              | Option.none => Option.none
              | some (c1, s2) =>
                  visitExpression m fuel (Expression.Break tgt v1 c1) s2
      | Expression.Call nm args ty =>
          match walkList m fuel args s with
          | Option.none => Option.none
          | some (args1, s1) =>
              visitExpression m fuel (Expression.Call nm args1 ty) s1
      | Expression.CallImport nm args ty =>
          match walkList m fuel args s with
          | Option.none => Option.none
          | some (args1, s1) =>
              visitExpression m fuel (Expression.CallImport nm args1 ty) s1
      | Expression.CallIndirect ft tgt args ty =>
          match walkList m fuel args s with
          | Option.none => Option.none
          | some (args1, s1) =>
              match walk m fuel tgt s1 with
              | Option.none => Option.none
              | some (tgt1, s2) =>
                  visitExpression m fuel (Expression.CallIndirect ft tgt1 args1 ty) s2
      | other => visitExpression m fuel other s

/-- Walk the children of a node left to right. -/
def walkList (m : Module) : Nat → List Expression → FuzzState → Option (List Expression × FuzzState)
  | _, [], s => some ([], s)
  | 0, _ :: _, _ => Option.none
  | fuel + 1, e :: rest, s =>
      match walk m fuel e s with
      | Option.none => Option.none
      | some (e1, s1) =>
          match walkList m fuel rest s1 with
          | Option.none => Option.none
          | some (rest1, s2) => some (e1 :: rest1, s2)

/-- Walk an optional child. -/
def walkOpt (m : Module) : Nat → Option Expression → FuzzState → Option (Option Expression × FuzzState)
  | _, Option.none, s => some (Option.none, s)
  | 0, some _, _ => Option.none
  | fuel + 1, some e, s =>
      match walk m fuel e s with
      | Option.none => Option.none
      | some (e1, s1) => some (some e1, s1)

end

/-- The per-function setup of `doWalkFunction` (`Fuzz.cpp:52-53`):
`names.scan(func->body); nextName = 0;` — the name registry is refilled
from the body and the fresh-name counter reset; nothing else of the state
is touched. -/
def scanSetup (body : Expression) (s : FuzzState) : FuzzState :=
  { s with names := labelsOf body, nextName := 0 }

/-- `void doWalkFunction(Function* func)` (`Fuzz.cpp:51-56`): scan the
body's labels, reset the fresh-name counter, walk the body, and
`assert(controlFlowStack.size() == 0)`.  A failing assertion is modelled
as `Option.none` on a completed walk. -/
def doWalkFunction (m : Module) (fuel : Nat) (body : Expression) (s : FuzzState) :
    Option (Expression × FuzzState) :=
  match walk m fuel body (scanSetup body s) with
  | Option.none => Option.none
  | some (b, s1) => if s1.stack = [] then some (b, s1) else Option.none

/-- State evolution invariant of the synthesizer: the control-flow stack is
restored, the name registry only grows, and the budget counter is changed
only by iterating the wrapping decrement. -/
def Evolves (s s' : FuzzState) : Prop :=
  s'.stack = s.stack ∧ (∀ n, n ∈ s.names → n ∈ s'.names) ∧
    ∃ k, s'.limit = decWrapIter k s.limit

/-- States that differ at most in the draw stream and the ghost step count. -/
def DrawsOnly (s s' : FuzzState) : Prop :=
  s'.stack = s.stack ∧ s'.names = s.names ∧ s'.limit = s.limit ∧
    s'.nextName = s.nextName

/-- Empty host module used by several concrete evaluations. -/
def c1Module : Module := ⟨[], [], ⟨false, []⟩⟩

/-- Draw stream (50, 0) with a full budget: the 5% chance fails and the
dispatch picks the `InvalidId` arm. -/
def c1State : FuzzState := ⟨[50, 0], 1000, [], 0, [], 0⟩

def c2Module : Module := ⟨[], [], ⟨false, []⟩⟩

/-- Budget 3, draws (50, 1, 0): chance fails, the dispatch picks a block of
one statement whose last child exhausts the budget. -/
def c2StateA : FuzzState := ⟨[50, 1, 0], 3, [], 0, [], 0⟩

/-- Budget already exhausted (0), draws (50, 0). -/
def c2StateB : FuzzState := ⟨[50, 0], 0, [], 0, [], 0⟩

/-- Budget 1, draws (0, 50, 0), for a direct `makeBlock` call. -/
def c2StateC : FuzzState := ⟨[0, 50, 0], 1, [], 0, [], 0⟩

/-- One named `i32` block on the control-flow stack, one draw. -/
def c3State : FuzzState := ⟨[7], 1000, [], 0, [Scope.block (some "x") WasmType.i32], 0⟩

/-- Empty control-flow stack. -/
def c3EmptyState : FuzzState := ⟨[7], 1000, [], 0, [], 0⟩

/-- A single draw of 5, for `pick 7`. -/
def c4State : FuzzState := ⟨[5], 1000, [], 0, [], 0⟩

def c5Module : Module := ⟨[], [], ⟨false, []⟩⟩
def c5MakeState : FuzzState := ⟨[50, 0], 1000, [], 0, [], 0⟩
def c5BlockState : FuzzState := ⟨[0, 50, 0], 1000, [], 0, [], 0⟩
def c5LoopState : FuzzState := ⟨[50, 0], 1000, [], 0, [], 0⟩
def c5WalkState : FuzzState := ⟨[50], 1000, [], 0, [], 0⟩

def c6Module : Module := ⟨[], [], ⟨false, []⟩⟩

/-- A function body in which the label "x" is already defined twice. -/
def c6Body : Expression :=
  Expression.Block (some "x") WasmType.none
    [Expression.Block (some "x") WasmType.none [Expression.Nop]]

/-- Three draws of 50: every `chance(5)` fails, so no node is replaced. -/
def c6State : FuzzState := ⟨[50, 50, 50], 1000, [], 0, [], 0⟩

def c6NameState : FuzzState := ⟨[], 1000, ["x"], 0, [], 0⟩

def c7Module : Module := ⟨[], [], ⟨false, []⟩⟩
def c7State : FuzzState := ⟨[50, 0], 1000, [], 0, [], 0⟩

/-- Three module-local functions with result type `i32` and no parameters. -/
def c8Module : Module :=
  ⟨[⟨"f0", [], WasmType.i32, Option.none⟩, ⟨"f1", [], WasmType.i32, Option.none⟩,
    ⟨"f2", [], WasmType.i32, Option.none⟩], [], ⟨false, []⟩⟩

/-- A single draw of 2: the draw the claim would reduce modulo the
candidate count. -/
def c8State : FuzzState := ⟨[2], 1000, [], 0, [], 0⟩

def c8EmptyState : FuzzState := ⟨[], 1000, [], 0, [], 0⟩

def c9Module : Module := ⟨[], [], ⟨false, []⟩⟩
def c9State : FuzzState := ⟨[50], 1000, [], 0, [], 0⟩

def c10Module : Module := ⟨[], [], ⟨false, []⟩⟩
def c10State : FuzzState := ⟨[0], 1000, [], 0, [], 0⟩

/-- The candidate list enumerated by `makeCall`: the module-local functions
whose result type equals the required type. -/
def callCandidates (m : Module) (ty : WasmType) : List Function :=
  m.functions.filter fun f => decide (f.result = ty)

/-- The candidate list enumerated by `makeCallImport`: the imports of kind
`Function` whose function type's result equals the required type. -/
def importCandidates (m : Module) (ty : WasmType) : List Import :=
  m.imports.filter fun i =>
    decide (i.kind = ImportKind.Function) && decide (i.result = ty)

/-- The candidate list enumerated by `makeCallIndirect`: over all table
segments in order, the named functions whose result type equals the
required type and whose declared function type is set. -/
def indirectCandidates (m : Module) (ty : WasmType) : List Function :=
  (m.table.segments.flatten).filterMap fun nm =>
    match m.getFunction nm with
    | some f =>
        if decide (f.result = ty) && f.type_.isSome then some f else Option.none
    | Option.none => Option.none

theorem decWrapIter_add (j k n : Nat) :
    decWrapIter j (decWrapIter k n) = decWrapIter (k + j) n := by
  induction k generalizing n with
  | zero => simp [decWrapIter]
  | succ k ih =>
      show decWrapIter j (decWrapIter k (decWrap n)) = decWrapIter (k + 1 + j) n
      rw [ih]
      have : k + 1 + j = (k + j) + 1 := by omega
      rw [this]
      rfl

theorem Evolves.refl (s : FuzzState) : Evolves s s :=
  ⟨rfl, fun _ h => h, 0, rfl⟩

theorem Evolves.trans {s t u : FuzzState} (h1 : Evolves s t) (h2 : Evolves t u) :
    Evolves s u := by
  obtain ⟨hs1, hn1, k1, hl1⟩ := h1
  obtain ⟨hs2, hn2, k2, hl2⟩ := h2
  refine ⟨hs2.trans hs1, fun n hn => hn2 n (hn1 n hn), k1 + k2, ?_⟩
  rw [hl2, hl1, decWrapIter_add]

theorem DrawsOnly.evolves {s s' : FuzzState} (h : DrawsOnly s s') : Evolves s s' := by
  obtain ⟨h1, h2, h3, _⟩ := h
  exact ⟨h1, fun n hn => h2 ▸ hn, 0, h3⟩

theorem evolves_consume (s : FuzzState) : Evolves s (consume s) :=
  ⟨rfl, fun _ h => h, 1, rfl⟩

theorem evolves_stepBump (s : FuzzState) : Evolves s (stepBump s) :=
  ⟨rfl, fun _ h => h, 0, rfl⟩

theorem drawsOnly_draw (s : FuzzState) : DrawsOnly s (draw s).2 :=
  ⟨rfl, rfl, rfl, rfl⟩

theorem chance_snd (p : Nat) (s : FuzzState) : (chance p s).2 = (draw s).2 := rfl

theorem pick_snd (mx : Nat) (s : FuzzState) : (pick mx s).2 = (draw s).2 := rfl

theorem evolves_chance (p : Nat) (s : FuzzState) : Evolves s (chance p s).2 :=
  (drawsOnly_draw s).evolves

theorem evolves_pick (mx : Nat) (s : FuzzState) : Evolves s (pick mx s).2 :=
  (drawsOnly_draw s).evolves

/-- Full characterization of a successful `getNewName` call: the returned
label is fresh, it is registered by consing, the counter strictly grows,
and nothing else of the state changes. -/
theorem getNewName_spec :
    ∀ fuel s n s', getNewName fuel s = some (n, s') →
      n ∉ s.names ∧ s'.names = n :: s.names ∧ s'.stack = s.stack ∧
        s'.limit = s.limit ∧ s'.draws = s.draws ∧ s'.steps = s.steps ∧
        s.nextName < s'.nextName := by
  intro fuel
  induction fuel with
  | zero => intro s n s' h; exact absurd h (by simp [getNewName])
  | succ fuel ih =>
      intro s n s' h
      rw [getNewName] at h
      by_cases hmem : ("fuzz$" ++ toString s.nextName) ∈ s.names
      · rw [if_pos (by simpa using hmem)] at h
        obtain ⟨h1, h2, h3, h4, h5, h6, h7⟩ := ih _ _ _ h
        exact ⟨h1, h2, h3, h4, h5, h6, Nat.lt_of_succ_lt h7⟩
      · rw [if_neg (by simpa using hmem)] at h
        injection h with h1
        injection h1 with hn hs
        subst hn; subst hs
        exact ⟨hmem, rfl, rfl, rfl, rfl, rfl, Nat.lt_succ_self _⟩

theorem evolves_getNewName {fuel : Nat} {s : FuzzState} {n : String}
    {s' : FuzzState} (h : getNewName fuel s = some (n, s')) : Evolves s s' := by
  obtain ⟨_, hnames, hstack, hlimit, _, _, _⟩ := getNewName_spec fuel s n s' h
  exact ⟨hstack, fun x hx => by rw [hnames]; exact List.mem_cons_of_mem _ hx, 0, hlimit⟩

theorem makeNone_snd (s : FuzzState) : (makeNone s).2 = consume s := by
  simp only [makeNone]
  split <;> rfl

theorem evolves_makeNone (s : FuzzState) : Evolves s (makeNone s).2 := by
  rw [makeNone_snd]; exact evolves_consume s

theorem makeInt64_snd (s : FuzzState) : (makeInt64 s).2 = consume s := by
  simp only [makeInt64]
  split <;> rfl

theorem makeFloat32_snd (s : FuzzState) : (makeFloat32 s).2 = consume s := by
  simp only [makeFloat32]
  split <;> rfl

theorem makeFloat64_snd (s : FuzzState) : (makeFloat64 s).2 = consume s := by
  simp only [makeFloat64]
  split <;> rfl

theorem makeUnreachable_snd (s : FuzzState) : (makeUnreachable s).2 = consume s := rfl

theorem evolves_makeNones (k : Nat) : ∀ s, Evolves s (makeNones k s).2 := by
  induction k with
  | zero => intro s; exact Evolves.refl s
  | succ k ih =>
      intro s
      have h1 : Evolves s (makeNone s).2 := evolves_makeNone s
      have h2 : Evolves (makeNone s).2 (makeNones k (makeNone s).2).2 := ih _
      show Evolves s (makeNones k (makeNone s).2).2
      exact h1.trans h2

theorem pushScope_stack (sc : Scope) (s : FuzzState) :
    (pushScope sc s).stack = s.stack ++ [sc] := rfl

theorem dropLast_append_singleton {α : Type} (l : List α) (a : α) :
    (l ++ [a]).dropLast = l := by
  rw [List.dropLast_concat]

theorem evolves_push_pop {sc : Scope} {s t : FuzzState}
    (h : Evolves (pushScope sc s) t) : Evolves s (popScope t) := by
  obtain ⟨hs, hn, k, hl⟩ := h
  refine ⟨?_, hn, k, hl⟩
  show t.stack.dropLast = s.stack
  rw [hs, pushScope_stack, dropLast_append_singleton]

theorem drawsOnly_trans {s t u : FuzzState} (h1 : DrawsOnly s t)
    (h2 : DrawsOnly t u) : DrawsOnly s u :=
  ⟨h2.1.trans h1.1, h2.2.1.trans h1.2.1, h2.2.2.1.trans h1.2.2.1,
    h2.2.2.2.trans h1.2.2.2⟩

theorem drawsOnly_stepBump (s : FuzzState) : DrawsOnly s (stepBump s) :=
  ⟨rfl, rfl, rfl, rfl⟩

/-- A value-carrying break admits no loop target: the loop filter requires
the absent value. -/
theorem breakLoops_some (v : Expression) (stack : List Scope) :
    breakLoops (some v) stack = [] := by
  simp only [breakLoops, List.filter_eq_nil_iff]
  intro sc _
  cases sc with
  | block n ty => simp
  | loop n => cases n <;> simp

theorem getD_mem {α : Type} (l : List α) (n : Nat) (d : α) (h : n < l.length) :
    l.getD n d ∈ l := by
  induction l generalizing n with
  | nil => simp at h
  | cons x xs ih =>
      cases n with
      | zero => rw [List.getD_cons_zero]; exact List.mem_cons_self x xs
      | succ n =>
          rw [List.getD_cons_succ]
          exact List.mem_cons_of_mem _ (ih n (Nat.lt_of_succ_lt_succ (by simpa using h)))

/-- Any member of the collected block list is a named block of the stack
whose declared type matches the value's type. -/
theorem mem_breakBlocks_some {v : Expression} {stack : List Scope} {sc : Scope}
    (h : sc ∈ breakBlocks (some v) stack) :
    sc ∈ stack ∧ ∃ nm bty, sc = Scope.block (some nm) bty ∧ tyOf v = some bty := by
  rw [breakBlocks, List.mem_filter] at h
  obtain ⟨hmem, hpred⟩ := h
  refine ⟨hmem, ?_⟩
  cases sc with
  | block n ty =>
      cases n with
      | none => simp at hpred
      | some nm => exact ⟨nm, ty, rfl, by simpa using hpred⟩
  | loop n => simp at hpred

/-- A successful value-carrying target resolution names a block on the
stack whose declared type equals the value's type. -/
theorem getBreakTarget_some_value {v : Expression} {s : FuzzState} {t : String}
    {s' : FuzzState} (h : getBreakTarget (some v) s = (some t, s')) :
    ∃ bty, Scope.block (some t) bty ∈ s.stack ∧ tyOf v = some bty := by
  rw [getBreakTarget] at h
  simp only [breakLoops_some, List.length_nil, Nat.add_zero] at h
  split at h
  · injection h with h1 h2
    exact Option.noConfusion h1
  · split at h
    next hlt =>
        injection h with h1 h2
        obtain ⟨hmem, nm, bty, hsc, hty⟩ :=
          mem_breakBlocks_some (getD_mem _ _ _ hlt)
        refine ⟨bty, ?_, hty⟩
        rw [hsc] at h1 hmem
        simp only [Scope.scopeName] at h1
        injection h1 with hnm
        rw [← hnm]
        exact hmem
    next hge =>
        injection h with h1 h2
        exact Option.noConfusion h1

/-- With an empty control-flow stack, target resolution returns the unset
name without consuming a draw. -/
theorem getBreakTarget_empty (val : Option Expression) (s : FuzzState)
    (h : s.stack = []) : getBreakTarget val s = (Option.none, s) := by
  simp [getBreakTarget, breakBlocks, breakLoops, h]

theorem drawsOnly_getBreakTarget (val : Option Expression) (s : FuzzState) :
    DrawsOnly s (getBreakTarget val s).2 := by
  rw [getBreakTarget]
  have hdd : DrawsOnly s (draw s).2 := ⟨rfl, rfl, rfl, rfl⟩
  split
  · exact ⟨rfl, rfl, rfl, rfl⟩
  · split
    next b s1 hp =>
      have hs1 : DrawsOnly s s1 := by
        have h2 := congrArg Prod.snd hp
        rw [pick_snd] at h2
        have h3 : (draw s).2 = s1 := h2
        exact h3 ▸ hdd
      split <;> exact hs1

theorem drawsOnly_makeBreak (v c : Expression) (s : FuzzState) :
    DrawsOnly s (makeBreak v c s).2 := by
  rw [makeBreak]
  have h := drawsOnly_getBreakTarget (some v) (stepBump s)
  split
  next t s2 heq =>
      have : s2 = (getBreakTarget (some v) (stepBump s)).2 := by rw [heq]
      exact drawsOnly_trans (drawsOnly_stepBump s) (this ▸ h)
  next s2 heq =>
      have : s2 = (getBreakTarget (some v) (stepBump s)).2 := by rw [heq]
      exact drawsOnly_trans (drawsOnly_stepBump s) (this ▸ h)

/-- Every `Break` node `makeBreak` emits carries the given value and
condition, and its target label came from a successful resolution against
the control-flow stack. -/
theorem makeBreak_break {v c : Expression} {s : FuzzState} {t : String}
    {val cnd : Option Expression}
    (h : (makeBreak v c s).1 = Expression.Break t val cnd) :
    val = some v ∧ cnd = some c ∧
      ∃ s2, getBreakTarget (some v) (stepBump s) = (some t, s2) := by
  rw [makeBreak] at h
  split at h
  next t' s2 heq =>
      injection h with h1 h2 h3
      subst h1
      exact ⟨h2.symm, h3.symm, s2, heq⟩
  next s2 heq => exact absurd h (by simp)

/-- With an empty stack `makeBreak` emits the terminal node, never a
`Break`. -/
theorem makeBreak_empty (v c : Expression) (s : FuzzState) (h : s.stack = []) :
    (makeBreak v c s).1 = Expression.Unreachable := by
  have he : (stepBump s).stack = [] := h
  rw [makeBreak, getBreakTarget_empty (some v) (stepBump s) he]

theorem evolves_chance_pair {p : Nat} {s : FuzzState} {b : Bool} {s' : FuzzState}
    (h : chance p s = (b, s')) : Evolves s s' := by
  have hh := evolves_chance p s
  rw [h] at hh
  exact hh

theorem evolves_pick_pair {mx : Nat} {s : FuzzState} {b : Bool} {s' : FuzzState}
    (h : pick mx s = (b, s')) : Evolves s s' := by
  have hh := evolves_pick mx s
  rw [h] at hh
  exact hh

theorem evolves_makeInt64 (s : FuzzState) : Evolves s (makeInt64 s).2 := by
  rw [makeInt64_snd]; exact evolves_consume s

theorem evolves_makeFloat32 (s : FuzzState) : Evolves s (makeFloat32 s).2 := by
  rw [makeFloat32_snd]; exact evolves_consume s

theorem evolves_makeFloat64 (s : FuzzState) : Evolves s (makeFloat64 s).2 := by
  rw [makeFloat64_snd]; exact evolves_consume s

theorem evolves_makeUnreachable (s : FuzzState) : Evolves s (makeUnreachable s).2 :=
  evolves_consume s

theorem evolves_makeBreak (v c : Expression) (s : FuzzState) :
    Evolves s (makeBreak v c s).2 :=
  (drawsOnly_makeBreak v c s).evolves

/-- The synthesizer's state invariant, proved for every creator of the
mutual recursion at once by induction on the fuel: a completed run restores
the control-flow stack, only adds to the name registry, and changes the
budget only by iterated wrapping decrements. -/
theorem synthEvolves (m : Module) : ∀ fuel,
    (∀ ty s p, make m fuel ty s = some p → Evolves s p.2) ∧
    (∀ s p, makeInt32 m fuel s = some p → Evolves s p.2) ∧
    (∀ ty s p, makeBlock m fuel ty s = some p → Evolves s p.2) ∧
    (∀ ty s p, makeLoop m fuel ty s = some p → Evolves s p.2) ∧
    (∀ ty s p, makeCall m fuel ty s = some p → Evolves s p.2) ∧
    (∀ ty s p, makeCallImport m fuel ty s = some p → Evolves s p.2) ∧
    (∀ ty s p, makeCallIndirect m fuel ty s = some p → Evolves s p.2) ∧
    (∀ ps s p, makeArgs m fuel ps s = some p → Evolves s p.2) := by
  intro fuel
  induction fuel with
  | zero =>
      refine ⟨?_, ?_, ?_, ?_, ?_, ?_, ?_, ?_⟩
      · intro ty s p h; rw [make] at h; exact Option.noConfusion h
      · intro s p h; rw [makeInt32] at h; exact Option.noConfusion h
      · intro ty s p h; rw [makeBlock] at h; exact Option.noConfusion h
      · intro ty s p h; rw [makeLoop] at h; exact Option.noConfusion h
      · intro ty s p h; rw [makeCall] at h; exact Option.noConfusion h
      · intro ty s p h; rw [makeCallImport] at h; exact Option.noConfusion h
      · intro ty s p h; rw [makeCallIndirect] at h; exact Option.noConfusion h
      · intro ps s p h
        cases ps with
        | nil =>
            rw [makeArgs] at h
            injection h with h1
            subst h1
            exact Evolves.refl s
        | cons q qs => rw [makeArgs] at h; exact Option.noConfusion h
  | succ fuel ih =>
      obtain ⟨ihMake, ihInt32, ihBlock, ihLoop, ihCall, ihCImp, ihCInd, ihArgs⟩ := ih
      refine ⟨?_, ?_, ?_, ?_, ?_, ?_, ?_, ?_⟩
      · -- make
        intro ty s p h
        simp only [make] at h
        split at h
        · injection h with h1; subst h1; exact evolves_consume s
        · split at h
          next s2 hc =>
              injection h with h1; subst h1
              exact (evolves_consume s).trans (evolves_chance_pair hc)
          next s2 hc =>
              have e0 : Evolves s s2 :=
                (evolves_consume s).trans (evolves_chance_pair hc)
              split at h
              · split at h
                · exact Option.noConfusion h
                next e s3 hm =>
                    injection h with h1; subst h1
                    exact e0.trans (ihInt32 s2 (e, s3) hm)
              · injection h with h1; subst h1
                exact e0.trans (evolves_makeInt64 s2)
              · injection h with h1; subst h1
                exact e0.trans (evolves_makeFloat32 s2)
              · injection h with h1; subst h1
                exact e0.trans (evolves_makeFloat64 s2)
              · injection h with h1; subst h1
                exact e0.trans (evolves_makeNone s2)
              · injection h with h1; subst h1
                exact e0.trans (evolves_makeUnreachable s2)
      · -- makeInt32
        intro s p h
        simp only [makeInt32] at h
        split at h
        · injection h with h1; subst h1; exact evolves_consume s
        next hl =>
            have e0 : Evolves s (pick NumExpressionIds (consume s)).2 :=
              (evolves_consume s).trans (evolves_pick _ _)
            cases hb : (pick NumExpressionIds (consume s)).1 with
            | false =>
                rw [hb] at h
                simp only [Bool.toNat_false] at h
                injection h with h1; subst h1
                exact e0
            | true =>
                rw [hb] at h
                simp only [Bool.toNat_true] at h
                exact e0.trans (ihBlock _ _ _ h)
      · -- makeBlock
        intro ty s p h
        simp only [makeBlock] at h
        split at h
        · exact Option.noConfusion h
        next name s2 hgn =>
            split at h
            · exact Option.noConfusion h
            next last s6 hmk =>
                injection h with h1; subst h1
                have e1 : Evolves s s2 :=
                  (evolves_stepBump s).trans (evolves_getNewName hgn)
                have e3 : Evolves (pushScope (Scope.block (some name) ty) s2) s6 := by
                  refine ((evolves_pick 5 _).trans ?_).trans (ihMake _ _ _ hmk)
                  exact evolves_makeNones _ _
                exact e1.trans (evolves_push_pop e3)
      · -- makeLoop
        intro ty s p h
        simp only [makeLoop] at h
        split at h
        · exact Option.noConfusion h
        next name s2 hgn =>
            split at h
            · exact Option.noConfusion h
            next body s4 hmk =>
                injection h with h1; subst h1
                have e1 : Evolves s s2 :=
                  (evolves_stepBump s).trans (evolves_getNewName hgn)
                have e3 : Evolves (pushScope (Scope.loop (some name)) s2) s4 :=
                  ihMake _ _ _ hmk
                exact e1.trans (evolves_push_pop e3)
      · -- makeCall
        intro ty s p h
        simp only [makeCall] at h
        split at h
        · injection h with h1; subst h1; exact evolves_stepBump s
        · split at h
          · exact Option.noConfusion h
          next args s3 hargs =>
              injection h with h1; subst h1
              exact ((evolves_stepBump s).trans (evolves_pick _ _)).trans
                (ihArgs _ _ _ hargs)
      · -- makeCallImport
        intro ty s p h
        simp only [makeCallImport] at h
        split at h
        · injection h with h1; subst h1; exact evolves_stepBump s
        · split at h
          · exact Option.noConfusion h
          next args s3 hargs =>
              injection h with h1; subst h1
              exact ((evolves_stepBump s).trans (evolves_pick _ _)).trans
                (ihArgs _ _ _ hargs)
      · -- makeCallIndirect
        intro ty s p h
        simp only [makeCallIndirect] at h
        split at h
        · injection h with h1; subst h1; exact evolves_stepBump s
        · split at h
          · injection h with h1; subst h1; exact evolves_stepBump s
          · split at h
            · exact Option.noConfusion h
            next args s3 hargs =>
                split at h
                · exact Option.noConfusion h
                next target s4 htgt =>
                    injection h with h1; subst h1
                    exact (((evolves_stepBump s).trans (evolves_pick _ _)).trans
                      (ihArgs _ _ (args, s3) hargs)).trans (ihInt32 s3 (target, s4) htgt)
      · -- makeArgs
        intro ps s p h
        cases ps with
        | nil =>
            rw [makeArgs] at h
            injection h with h1
            subst h1
            exact Evolves.refl s
        | cons q qs =>
            simp only [makeArgs] at h
            split at h
            · exact Option.noConfusion h
            next a s1 hmk =>
                split at h
                · exact Option.noConfusion h
                next rest s2 hrest =>
                    injection h with h1; subst h1
                    exact (ihMake q s (a, s1) hmk).trans (ihArgs qs s1 (rest, s2) hrest)

/-- The visitor hook preserves the invariant: it draws the chance and, on
success, runs the synthesizer. -/
theorem evolves_visitExpression (m : Module) (fuel : Nat) (curr : Expression)
    {s : FuzzState} {p : Expression × FuzzState}
    (h : visitExpression m fuel curr s = some p) : Evolves s p.2 := by
  rw [visitExpression] at h
  split at h
  next s1 hc =>
      split at h
      · exact (evolves_chance_pair hc).trans ((synthEvolves m fuel).1 _ _ _ h)
      · injection h with h1; subst h1
        exact evolves_chance_pair hc
  next s1 hc =>
      injection h with h1; subst h1
      exact evolves_chance_pair hc

/-- The walker preserves the invariant: scopes pushed around a structured
node are popped again, and everything else is the visitor's effect. -/
theorem walkEvolves (m : Module) : ∀ fuel,
    (∀ e s p, walk m fuel e s = some p → Evolves s p.2) ∧
    (∀ es s p, walkList m fuel es s = some p → Evolves s p.2) ∧
    (∀ oe s p, walkOpt m fuel oe s = some p → Evolves s p.2) := by
  intro fuel
  induction fuel with
  | zero =>
      refine ⟨?_, ?_, ?_⟩
      · intro e s p h; rw [walk] at h; exact Option.noConfusion h
      · intro es s p h
        cases es with
        | nil =>
            rw [walkList] at h
            injection h with h1
            subst h1
            exact Evolves.refl s
        | cons e rest => rw [walkList] at h; exact Option.noConfusion h
      · intro oe s p h
        cases oe with
        | none =>
            rw [walkOpt] at h
            injection h with h1
            subst h1
            exact Evolves.refl s
        | some e => rw [walkOpt] at h; exact Option.noConfusion h
  | succ fuel ih =>
      obtain ⟨ihW, ihL, ihO⟩ := ih
      refine ⟨?_, ?_, ?_⟩
      · intro e s p h
        simp only [walk] at h
        split at h
        · -- Block
          split at h
          · exact Option.noConfusion h
          next ls1 s2 hL =>
              split at h
              · exact Option.noConfusion h
              next e1 s3 hV =>
                  injection h with h1; subst h1
                  have e23 : Evolves (pushScope (Scope.block _ _) s) s3 :=
                    (ihL _ _ (ls1, s2) hL).trans (evolves_visitExpression m fuel _ hV)
                  exact evolves_push_pop e23
        · -- Loop
          split at h
          · exact Option.noConfusion h
          next b1 s2 hW =>
              split at h
              · exact Option.noConfusion h
              next e1 s3 hV =>
                  injection h with h1; subst h1
                  have e23 : Evolves (pushScope (Scope.loop _) s) s3 :=
                    (ihW _ _ (b1, s2) hW).trans (evolves_visitExpression m fuel _ hV)
                  exact evolves_push_pop e23
        · -- If
          split at h
          · exact Option.noConfusion h
          next c1 s1 hW1 =>
              split at h
              · exact Option.noConfusion h
              next t1 s2 hW2 =>
                  split at h
                  · exact Option.noConfusion h
                  next e2 s3 hW3 =>
                      exact (((ihW _ _ (c1, s1) hW1).trans
                        (ihW _ _ (t1, s2) hW2)).trans
                        (ihW _ _ (e2, s3) hW3)).trans
                        (evolves_visitExpression m fuel _ h)
        · -- Break
          split at h
          · exact Option.noConfusion h
          next v1 s1 hO1 =>
              split at h
              · exact Option.noConfusion h
              next c1 s2 hO2 =>
                  exact ((ihO _ _ (v1, s1) hO1).trans
                    (ihO _ _ (c1, s2) hO2)).trans
                    (evolves_visitExpression m fuel _ h)
        · -- Call
          split at h
          · exact Option.noConfusion h
          next args1 s1 hL =>
              exact (ihL _ _ (args1, s1) hL).trans
                (evolves_visitExpression m fuel _ h)
        · -- CallImport
          split at h
          · exact Option.noConfusion h
          next args1 s1 hL =>
              exact (ihL _ _ (args1, s1) hL).trans
                (evolves_visitExpression m fuel _ h)
        · -- CallIndirect
          split at h
          · exact Option.noConfusion h
          next args1 s1 hL =>
              split at h
              · exact Option.noConfusion h
              next tgt1 s2 hW =>
                  exact ((ihL _ _ (args1, s1) hL).trans
                    (ihW _ _ (tgt1, s2) hW)).trans
                    (evolves_visitExpression m fuel _ h)
        all_goals exact evolves_visitExpression m fuel _ h
      · intro es s p h
        cases es with
        | nil =>
            rw [walkList] at h
            injection h with h1
            subst h1
            exact Evolves.refl s
        | cons e rest =>
            simp only [walkList] at h
            split at h
            · exact Option.noConfusion h
            next e1 s1 hW =>
                split at h
                · exact Option.noConfusion h
                next rest1 s2 hL =>
                    injection h with h1; subst h1
                    exact (ihW _ _ (e1, s1) hW).trans (ihL _ _ (rest1, s2) hL)
      · intro oe s p h
        cases oe with
        | none =>
            rw [walkOpt] at h
            injection h with h1
            subst h1
            exact Evolves.refl s
        | some e =>
            simp only [walkOpt] at h
            split at h
            · exact Option.noConfusion h
            next e1 s1 hW =>
                injection h with h1; subst h1
                exact ihW _ _ (e1, s1) hW

theorem pick_toNat_lt (n : Nat) (s : FuzzState) (h : 0 < n) :
    (pick n s).1.toNat < n := by
  rcases n with _ | _ | n
  · omega
  · simp [pick, draw, Nat.mod_one]
  · exact Nat.lt_of_lt_of_le (Bool.toNat_lt _) (by omega)

/-- The argument loop produces one argument per declared parameter. -/
theorem makeArgs_length (m : Module) :
    ∀ fuel ps s args s2, makeArgs m fuel ps s = some (args, s2) →
      args.length = ps.length := by
  intro fuel
  induction fuel with
  | zero =>
      intro ps s args s2 h
      cases ps with
      | nil =>
          rw [makeArgs] at h
          injection h with h1
          injection h1 with ha hb
          rw [← ha]
          rfl
      | cons q qs => rw [makeArgs] at h; exact Option.noConfusion h

  | succ fuel ih =>
      intro ps s args s2 h
      cases ps with
      | nil =>
          rw [makeArgs] at h
          injection h with h1
          injection h1 with ha hb
          rw [← ha]
          rfl
      | cons q qs =>
          simp only [makeArgs] at h
          split at h
          · exact Option.noConfusion h
          next a s1 hmk =>
              split at h
              · exact Option.noConfusion h
              next rest s3 hrest =>
                  injection h with h1
                  injection h1 with ha hb
                  rw [← ha]
                  simp [ih qs s1 rest s3 hrest]

/-- C1.  The claim states type preservation: `make(t)` returns an
expression node whose static type is exactly `t`.  Evaluating the embedded
`make` at type `i32` on `c1State` (budget 1000, chance draw failing, an
executed dispatch) shows the function instead returns the unspecified
value modelled by `Expression.undef` — every dispatch arm of the source
calls `replaceCurrent(...)` and then falls off the end of the
value-returning function — which is not an expression of static type
`i32` (it has no static type at all). -/
theorem make_i32_returns_no_node :
    (make c1Module 10 WasmType.i32 c1State).map Prod.fst = some Expression.undef ∧
      tyOf Expression.undef = Option.none ∧
      (make c1Module 10 WasmType.i32 c1State).map (fun q => tyOf q.1) ≠
        some (some WasmType.i32) :=
  ⟨rfl, rfl, by decide⟩

/-- C2.  The claim bounds every run by the initial budget B and requires
every node-creation entry point to decrement-and-short-circuit.  Three
concrete evaluations refute it on the code: (a) with budget B = 3 a single
`make` call performs 4 node-creation entries (`makeBlock` creates its node
without decrementing); (b) a `make` call entered with the counter already
at 0 wraps the unsigned decrement to 2^32 - 1 and keeps synthesizing
instead of short-circuiting; (c) `makeBlock` entered with budget 1 still
returns a `Block` node rather than the terminal unreachable node. -/
theorem make_budget_overrun :
    ((make c2Module 10 WasmType.i32 c2StateA).map (fun q => (q.2.steps, q.2.limit)) =
        some (4, 0) ∧ c2StateA.limit = 3 ∧ 4 > 3) ∧
    ((make c2Module 10 WasmType.i32 c2StateB).map (fun q => (q.2.steps, q.2.limit)) =
        some (2, 4294967294) ∧ c2StateB.limit = 0) ∧
    (makeBlock c2Module 10 WasmType.i32 c2StateC).map Prod.fst =
      some (Expression.Block (some "fuzz$0") WasmType.i32 [Expression.Unreachable]) :=
  ⟨⟨rfl, rfl, by decide⟩, ⟨rfl, rfl⟩, rfl⟩

/-- C4.  The claim states `pick(b)` returns the draw reduced modulo `b`,
an integer in [0, b).  The source declares `bool pick(int max)`, so the
residue is collapsed to a boolean: with draw 5 and bound 7 the embedded
`pick` returns `true`, which call sites convert to the index 1, not the
residue 5 = 5 % 7 the claim requires. -/
theorem pick_returns_bool_not_residue :
    (pick 7 c4State).1 = true ∧ Bool.toNat true = 1 ∧ (5 : Nat) % 7 = 5 ∧
      (1 : Nat) ≠ 5 :=
  ⟨rfl, rfl, rfl, by decide⟩

/-- C3.  Break legality: every `Break` node the synthesizer emits (they
all come from `makeBreak`, which always carries a value) targets a label
of a block present on the control-flow stack whose declared type equals
the value's type; and with an empty stack the synthesizer emits the
terminal unreachable node, never a `Break`. -/
theorem break_legality (v c : Expression) (s : FuzzState) (t : String)
    (val cnd : Option Expression) :
    ((makeBreak v c s).1 = Expression.Break t val cnd →
      val = some v ∧
        ∃ bty, Scope.block (some t) bty ∈ s.stack ∧ tyOf v = some bty) ∧
    (s.stack = [] → (makeBreak v c s).1 = Expression.Unreachable) := by
  constructor
  · intro h
    obtain ⟨hval, hcnd, s2, htgt⟩ := makeBreak_break h
    obtain ⟨bty, hmem, hty⟩ := getBreakTarget_some_value htgt
    exact ⟨hval, bty, hmem, hty⟩
  · exact makeBreak_empty v c s

/-- Witness for C3: on a stack holding the named `i32` block "x", the
break built for an `i32` constant targets that block; on an empty stack
the result is the terminal unreachable node. -/
theorem break_legality_witness :
    ((some (Expression.Const WasmType.i32) : Option Expression) =
        some (Expression.Const WasmType.i32) ∧
      ∃ bty, Scope.block (some "x") bty ∈ c3State.stack ∧
        tyOf (Expression.Const WasmType.i32) = some bty) ∧
    (makeBreak (Expression.Const WasmType.i32) Expression.Nop c3EmptyState).1 =
      Expression.Unreachable :=
  ⟨(break_legality (Expression.Const WasmType.i32) Expression.Nop c3State "x"
      (some (Expression.Const WasmType.i32)) (some Expression.Nop)).1 rfl,
   (break_legality (Expression.Const WasmType.i32) Expression.Nop c3EmptyState "x"
      (some (Expression.Const WasmType.i32)) (some Expression.Nop)).2 rfl⟩

/-- C10.  The only `Break` production is `makeBreak(makeInt32(), makeInt32())`
(`Fuzz.cpp:94`): both the value and the condition are synthesized by
`makeInt32` before the target is resolved (the resolution runs on the state
`s2` left by the two syntheses).  Any emitted `Break` carries both the value
and the condition; when resolution fails the result degrades to the terminal
unreachable node; and in both cases the budget decrements from the two
sub-expression syntheses persist (the budget, registry and stack of `s2`
pass through `makeBreak` unchanged). -/
theorem break_production_conditional (m : Module) (fuel : Nat)
    (s : FuzzState) (v c : Expression) (s1 s2 : FuzzState)
    (h1 : makeInt32 m fuel s = some (v, s1))
    (h2 : makeInt32 m fuel s1 = some (c, s2)) :
    ((∃ t, getBreakTarget (some v) (stepBump s2) = (some t, (makeBreak v c s2).2) ∧
        (makeBreak v c s2).1 = Expression.Break t (some v) (some c)) ∨
      (getBreakTarget (some v) (stepBump s2) = (Option.none, (makeBreak v c s2).2) ∧
        (makeBreak v c s2).1 = Expression.Unreachable)) ∧
    (∃ k1, s1.limit = decWrapIter k1 s.limit) ∧
    (∃ k2, s2.limit = decWrapIter k2 s1.limit) ∧
    (makeBreak v c s2).2.limit = s2.limit ∧
    (makeBreak v c s2).2.names = s2.names ∧
    (makeBreak v c s2).2.stack = s2.stack := by
  have hd := drawsOnly_makeBreak v c s2
  have e1 := (synthEvolves m fuel).2.1 s (v, s1) h1
  have e2 := (synthEvolves m fuel).2.1 s1 (c, s2) h2
  refine ⟨?_, e1.2.2, e2.2.2, hd.2.2.1, hd.2.1, hd.1⟩
  have hmb : makeBreak v c s2 =
      match getBreakTarget (some v) (stepBump s2) with
      | (some t, s3) => (Expression.Break t (some v) (some c), s3)
      | (Option.none, s3) => (Expression.Unreachable, s3) := rfl
  rcases hg : getBreakTarget (some v) (stepBump s2) with ⟨tgt, s3⟩
  cases tgt with
  | some t =>
      left
      refine ⟨t, ?_, ?_⟩
      · rw [hmb, hg]
      · rw [hmb, hg]
  | none =>
      right
      refine ⟨?_, ?_⟩
      · rw [hmb, hg]
      · rw [hmb, hg]

/-- Witness for C10: from `c10State` two `makeInt32` calls return terminal
nodes while consuming the budget; `makeBreak` on the empty stack then
degrades to the terminal node and the consumed budget persists. -/
theorem break_production_conditional_witness :
    ((∃ t, getBreakTarget (some Expression.Unreachable)
          (stepBump (⟨[], 998, [], 0, [], 2⟩ : FuzzState)) =
          (some t, (makeBreak Expression.Unreachable Expression.Unreachable
            (⟨[], 998, [], 0, [], 2⟩ : FuzzState)).2) ∧
        (makeBreak Expression.Unreachable Expression.Unreachable
            (⟨[], 998, [], 0, [], 2⟩ : FuzzState)).1 =
          Expression.Break t (some Expression.Unreachable)
            (some Expression.Unreachable)) ∨
      (getBreakTarget (some Expression.Unreachable)
          (stepBump (⟨[], 998, [], 0, [], 2⟩ : FuzzState)) =
          (Option.none, (makeBreak Expression.Unreachable Expression.Unreachable
            (⟨[], 998, [], 0, [], 2⟩ : FuzzState)).2) ∧
        (makeBreak Expression.Unreachable Expression.Unreachable
            (⟨[], 998, [], 0, [], 2⟩ : FuzzState)).1 = Expression.Unreachable)) ∧
    (∃ k1, (⟨[], 999, [], 0, [], 1⟩ : FuzzState).limit =
      decWrapIter k1 c10State.limit) ∧
    (∃ k2, (⟨[], 998, [], 0, [], 2⟩ : FuzzState).limit =
      decWrapIter k2 (⟨[], 999, [], 0, [], 1⟩ : FuzzState).limit) ∧
    (makeBreak Expression.Unreachable Expression.Unreachable
        (⟨[], 998, [], 0, [], 2⟩ : FuzzState)).2.limit =
      (⟨[], 998, [], 0, [], 2⟩ : FuzzState).limit ∧
    (makeBreak Expression.Unreachable Expression.Unreachable
        (⟨[], 998, [], 0, [], 2⟩ : FuzzState)).2.names =
      (⟨[], 998, [], 0, [], 2⟩ : FuzzState).names ∧
    (makeBreak Expression.Unreachable Expression.Unreachable
        (⟨[], 998, [], 0, [], 2⟩ : FuzzState)).2.stack =
      (⟨[], 998, [], 0, [], 2⟩ : FuzzState).stack :=
  break_production_conditional c10Module 10 c10State
    Expression.Unreachable Expression.Unreachable
    ⟨[], 999, [], 0, [], 1⟩ ⟨[], 998, [], 0, [], 2⟩ rfl rfl

/-- C5.  Stack balance: a completed synthesis (`make`, and in particular
the scope-pushing creators `makeBlock` and `makeLoop`) returns with the
control-flow stack exactly as it found it; and for a function walk started
on an empty stack the final stack is empty, so `doWalkFunction`'s
`assert(controlFlowStack.size() == 0)` never fires (the assertion is
modelled as the `Option.none` outcome of `doWalkFunction`, which is shown
not to occur). -/
theorem stack_balance (m : Module) (fuel : Nat) (ty : WasmType)
    (s sB sL s4 : FuzzState) (p pB pL : Expression × FuzzState)
    (body b2 : Expression) (s5 : FuzzState) :
    (make m fuel ty s = some p → p.2.stack = s.stack) ∧
    (makeBlock m fuel ty sB = some pB → pB.2.stack = sB.stack) ∧
    (makeLoop m fuel ty sL = some pL → pL.2.stack = sL.stack) ∧
    (s4.stack = [] → walk m fuel body (scanSetup body s4) = some (b2, s5) →
      doWalkFunction m fuel body s4 = some (b2, s5) ∧ s5.stack = []) := by
  refine ⟨?_, ?_, ?_, ?_⟩
  · intro h; exact ((synthEvolves m fuel).1 _ _ _ h).1
  · intro h; exact ((synthEvolves m fuel).2.2.1 _ _ _ h).1
  · intro h; exact ((synthEvolves m fuel).2.2.2.1 _ _ _ h).1
  · intro hs hw
    have hstack : s5.stack = (scanSetup body s4).stack :=
      ((walkEvolves m fuel).1 _ _ (b2, s5) hw).1
    have h5 : s5.stack = [] := by
      rw [hstack]
      exact hs
    refine ⟨?_, h5⟩
    rw [doWalkFunction, hw]
    show (if s5.stack = [] then some (b2, s5) else Option.none) = some (b2, s5)
    rw [if_pos h5]

/-- Witness for C5: concrete runs of `make`, `makeBlock`, `makeLoop` and a
walk, each starting and ending with an empty stack. -/
theorem stack_balance_witness :
    ((Expression.undef, (⟨[], 998, [], 0, [], 2⟩ : FuzzState)).2.stack =
        c5MakeState.stack) ∧
    ((Expression.Block (some "fuzz$0") WasmType.i32 [Expression.undef],
        (⟨[], 998, ["fuzz$0"], 1, [], 3⟩ : FuzzState)).2.stack =
        c5BlockState.stack) ∧
    ((Expression.Loop (some "fuzz$0") Expression.undef,
        (⟨[], 998, ["fuzz$0"], 1, [], 3⟩ : FuzzState)).2.stack =
        c5LoopState.stack) ∧
    (doWalkFunction c5Module 10 Expression.Nop c5WalkState =
        some (Expression.Nop, ⟨[], 1000, [], 0, [], 0⟩) ∧
      (⟨[], 1000, [], 0, [], 0⟩ : FuzzState).stack = []) := by
  obtain ⟨h1, h2, h3, h4⟩ := stack_balance c5Module 10 WasmType.i32
    c5MakeState c5BlockState c5LoopState c5WalkState
    (Expression.undef, ⟨[], 998, [], 0, [], 2⟩)
    (Expression.Block (some "fuzz$0") WasmType.i32 [Expression.undef],
      ⟨[], 998, ["fuzz$0"], 1, [], 3⟩)
    (Expression.Loop (some "fuzz$0") Expression.undef,
      ⟨[], 998, ["fuzz$0"], 1, [], 3⟩)
    Expression.Nop Expression.Nop ⟨[], 1000, [], 0, [], 0⟩
  exact ⟨h1 rfl, h2 rfl, h3 rfl, h4 rfl rfl⟩

/-- C6 counterexample.  The claim asserts that after mutating a function
every label in its body is unique.  On the body `c6Body`, whose label "x"
is already defined twice, a completed mutation pass that replaces nothing
(all three chance draws fail) returns the body unchanged, and its labels
are not pairwise distinct. -/
theorem labels_not_unique_after_mutation :
    (doWalkFunction c6Module 10 c6Body c6State).map Prod.fst = some c6Body ∧
      ¬ (labelsOf c6Body).Nodup :=
  ⟨rfl, by decide⟩

/-- C6 as amended.  Fresh labels issued by `getNewName` are unique: a
returned label is absent from the registry (which holds every label
scanned from the body and every label issued so far), it is registered
before being returned, and two successive calls return distinct labels;
pre-existing labels are not touched, so duplicates already in the body may
persist after mutation. -/
theorem freshName_unique (f1 f2 : Nat) (s s1 s2 : FuzzState) (n1 n2 : String)
    (h1 : getNewName f1 s = some (n1, s1))
    (h2 : getNewName f2 s1 = some (n2, s2)) :
    n1 ∉ s.names ∧ s1.names = n1 :: s.names ∧ n1 ∈ s1.names ∧
      n2 ∉ s1.names ∧ n2 ≠ n1 := by
  obtain ⟨a1, a2, _, _, _, _, _⟩ := getNewName_spec f1 s n1 s1 h1
  obtain ⟨b1, _, _, _, _, _, _⟩ := getNewName_spec f2 s1 n2 s2 h2
  have hm : n1 ∈ s1.names := by
    rw [a2]
    exact List.mem_cons_self _ _
  exact ⟨a1, a2, hm, b1, fun he => b1 (he ▸ hm)⟩

/-- Witness for C6: two successive fresh names over the pre-existing
registry ("x") are "fuzz$0" then "fuzz$1", both fresh and distinct. -/
theorem freshName_unique_witness :
    "fuzz$0" ∉ c6NameState.names ∧
      (⟨[], 1000, ["fuzz$0", "x"], 1, [], 0⟩ : FuzzState).names =
        "fuzz$0" :: c6NameState.names ∧
      "fuzz$0" ∈ (⟨[], 1000, ["fuzz$0", "x"], 1, [], 0⟩ : FuzzState).names ∧
      "fuzz$1" ∉ (⟨[], 1000, ["fuzz$0", "x"], 1, [], 0⟩ : FuzzState).names ∧
      "fuzz$1" ≠ "fuzz$0" :=
  freshName_unique 2 2 c6NameState
    ⟨[], 1000, ["fuzz$0", "x"], 1, [], 0⟩
    ⟨[], 1000, ["fuzz$1", "fuzz$0", "x"], 2, [], 0⟩
    "fuzz$0" "fuzz$1" rfl rfl

/-- C7.  The intended `makeLoop` (the source text reads `ret->name` one
line before `ret` is declared and does not compile; this theorem is about
the spec-modelled definition): a completed call allocates a fresh label,
synthesizes exactly one body expression of the required type in the state
carrying the pushed Loop scope with that label, and returns a `Loop` node
bearing the label and that body, with the stack restored. -/
theorem makeLoop_spec_model (m : Module) (fuel : Nat) (ty : WasmType)
    (s : FuzzState) (p : Expression × FuzzState)
    (h : makeLoop m (fuel + 1) ty s = some p) :
    ∃ name s1 body s2,
      getNewName (s.names.length + 1) (stepBump s) = some (name, s1) ∧
      name ∉ s.names ∧
      make m fuel ty (pushScope (Scope.loop (some name)) s1) = some (body, s2) ∧
      p.1 = Expression.Loop (some name) body ∧
      p.2 = popScope s2 ∧ p.2.stack = s.stack := by
  simp only [makeLoop] at h
  split at h
  · exact Option.noConfusion h
  next name s1 hgn =>
      split at h
      · exact Option.noConfusion h
      next body s2 hmk =>
          injection h with h1; subst h1
          have hfresh : name ∉ s.names := (getNewName_spec _ _ _ _ hgn).1
          refine ⟨name, s1, body, s2, hgn, hfresh, hmk, rfl, rfl, ?_⟩
          have hs2 : s2.stack = (pushScope (Scope.loop (some name)) s1).stack :=
            ((synthEvolves m fuel).1 _ _ (body, s2) hmk).1
          have hs1 : s1.stack = s.stack := (getNewName_spec _ _ _ _ hgn).2.2.1
          show s2.stack.dropLast = s.stack
          rw [hs2, pushScope_stack, dropLast_append_singleton, hs1]

/-- Witness for C7: a concrete completed `makeLoop` run. -/
theorem makeLoop_spec_model_witness :
    ∃ name s1 body s2,
      getNewName (c7State.names.length + 1) (stepBump c7State) = some (name, s1) ∧
      name ∉ c7State.names ∧
      make c7Module 9 WasmType.i32
        (pushScope (Scope.loop (some name)) s1) = some (body, s2) ∧
      (Expression.Loop (some "fuzz$0") Expression.undef) =
        Expression.Loop (some name) body ∧
      (⟨[], 998, ["fuzz$0"], 1, [], 3⟩ : FuzzState) = popScope s2 ∧
      (⟨[], 998, ["fuzz$0"], 1, [], 3⟩ : FuzzState).stack = c7State.stack := by
  have h := makeLoop_spec_model c7Module 9 WasmType.i32 c7State
    (Expression.Loop (some "fuzz$0") Expression.undef,
      ⟨[], 998, ["fuzz$0"], 1, [], 3⟩) rfl
  exact h

theorem length_pos_of_isEmpty_false {α : Type} {l : List α}
    (h : l.isEmpty = false) : 0 < l.length := by
  cases l with
  | nil => simp [List.isEmpty] at h
  | cons a as => simp

/-- C8 counterexample.  The claim says the candidate is picked uniformly
(the draw reduced modulo the candidate count).  With three `i32` candidates
and the draw 2, the code picks `f1` (index 1, the boolean collapse of the
draw), while the uniform reduction 2 % 3 = 2 names `f2`; the third
candidate can never be chosen. -/
theorem makeCall_choice_not_uniform :
    (makeCall c8Module 10 WasmType.i32 c8State).map Prod.fst =
      some (Expression.Call "f1" [] WasmType.i32) ∧
    ((callCandidates c8Module WasmType.i32).getD (2 % 3)
        ⟨"", [], WasmType.i32, Option.none⟩).name = "f2" ∧
    "f1" ≠ "f2" :=
  ⟨rfl, rfl, by decide⟩

/-- C8 as amended.  Each call production enumerates exactly the candidates
whose declared result type equals the required type (for indirect calls
also requiring a declared function type and an existing table); an empty
candidate list falls back to the terminal unreachable node; otherwise a
candidate of the list is selected (at the boolean-collapsed index 0 or 1,
not uniformly) and one argument is synthesized per declared parameter in
declaration order, the call node carrying exactly that argument list. -/
theorem call_family_contract (m : Module) (fuel : Nat) (ty : WasmType)
    (s sI sX : FuzzState) (p pI pX : Expression × FuzzState)
    (hC : makeCall m (fuel + 1) ty s = some p)
    (hI : makeCallImport m (fuel + 1) ty sI = some pI)
    (hX : makeCallIndirect m (fuel + 1) ty sX = some pX) :
    ((∀ f, f ∈ callCandidates m ty ↔ f ∈ m.functions ∧ f.result = ty) ∧
      ((callCandidates m ty).isEmpty = true → p.1 = Expression.Unreachable) ∧
      ((callCandidates m ty).isEmpty = false →
        ∃ func args s3, func ∈ callCandidates m ty ∧
          makeArgs m fuel func.params
            (pick (callCandidates m ty).length (stepBump s)).2 = some (args, s3) ∧
          p = (Expression.Call func.name args ty, s3) ∧
          args.length = func.params.length)) ∧
    ((∀ i, i ∈ importCandidates m ty ↔
        i ∈ m.imports ∧ i.kind = ImportKind.Function ∧ i.result = ty) ∧
      ((importCandidates m ty).isEmpty = true → pI.1 = Expression.Unreachable) ∧
      ((importCandidates m ty).isEmpty = false →
        ∃ imp args s3, imp ∈ importCandidates m ty ∧
          makeArgs m fuel imp.params
            (pick (importCandidates m ty).length (stepBump sI)).2 = some (args, s3) ∧
          pI = (Expression.CallImport imp.name args ty, s3) ∧
          args.length = imp.params.length)) ∧
    ((m.table.exists_ = false → pX.1 = Expression.Unreachable) ∧
      (m.table.exists_ = true → (indirectCandidates m ty).isEmpty = true →
        pX.1 = Expression.Unreachable) ∧
      (m.table.exists_ = true → (indirectCandidates m ty).isEmpty = false →
        ∃ func args s3 target s4, func ∈ indirectCandidates m ty ∧
          makeArgs m fuel func.params
            (pick (indirectCandidates m ty).length (stepBump sX)).2 =
            some (args, s3) ∧
          makeInt32 m fuel s3 = some (target, s4) ∧
          pX = (Expression.CallIndirect func.type_ target args ty, s4) ∧
          args.length = func.params.length)) := by
  refine ⟨⟨?_, ?_, ?_⟩, ⟨?_, ?_, ?_⟩, ⟨?_, ?_, ?_⟩⟩
  · intro f
    simp [callCandidates, List.mem_filter]
  · intro hE
    simp only [callCandidates] at hE
    simp only [makeCall] at hC
    rw [if_pos hE] at hC
    injection hC with h1
    subst h1
    rfl
  · intro hNE
    simp only [callCandidates] at hNE
    simp only [makeCall] at hC
    rw [if_neg (fun hcon => by rw [hNE] at hcon; exact Bool.noConfusion hcon)] at hC
    split at hC
    · exact Option.noConfusion hC
    next args s3 hargs =>
        injection hC with h1
        subst h1
        exact ⟨_, args, s3,
          getD_mem _ _ _ (pick_toNat_lt _ _ (length_pos_of_isEmpty_false hNE)),
          hargs, rfl, makeArgs_length m fuel _ _ _ _ hargs⟩
  · intro i
    simp [importCandidates, List.mem_filter, Bool.and_eq_true, and_assoc]
  · intro hE
    simp only [importCandidates] at hE
    simp only [makeCallImport] at hI
    rw [if_pos hE] at hI
    injection hI with h1
    subst h1
    rfl
  · intro hNE
    simp only [importCandidates] at hNE
    simp only [makeCallImport] at hI
    rw [if_neg (fun hcon => by rw [hNE] at hcon; exact Bool.noConfusion hcon)] at hI
    split at hI
    · exact Option.noConfusion hI
    next args s3 hargs =>
        injection hI with h1
        subst h1
        exact ⟨_, args, s3,
          getD_mem _ _ _ (pick_toNat_lt _ _ (length_pos_of_isEmpty_false hNE)),
          hargs, rfl, makeArgs_length m fuel _ _ _ _ hargs⟩
  · intro hT
    simp only [makeCallIndirect] at hX
    rw [if_pos (by simp [hT])] at hX
    injection hX with h1
    subst h1
    rfl
  · intro hT hE
    simp only [indirectCandidates, Module.getFunction] at hE
    simp only [makeCallIndirect, Module.getFunction] at hX
    rw [if_neg (by simp [hT])] at hX
    rw [if_pos hE] at hX
    injection hX with h1
    subst h1
    rfl
  · intro hT hNE
    simp only [indirectCandidates, Module.getFunction] at hNE
    simp only [makeCallIndirect, Module.getFunction] at hX
    rw [if_neg (by simp [hT])] at hX
    rw [if_neg (fun hcon => by rw [hNE] at hcon; exact Bool.noConfusion hcon)] at hX
    split at hX
    · exact Option.noConfusion hX
    next args s3 hargs =>
        split at hX
        · exact Option.noConfusion hX
        next target s4 htgt =>
            injection hX with h1
            subst h1
            exact ⟨_, args, s3, target, s4,
              getD_mem _ _ _ (pick_toNat_lt _ _ (length_pos_of_isEmpty_false hNE)),
              hargs, htgt, rfl, makeArgs_length m fuel _ _ _ _ hargs⟩

/-- Witness for C8: on `c8Module` the `makeCall` production succeeds with a
candidate of the (three-element) candidate list; the import production
falls back on its empty candidate list; the indirect production falls back
on the missing table. -/
theorem call_family_contract_witness :
    (∃ func args s3, func ∈ callCandidates c8Module WasmType.i32 ∧
        makeArgs c8Module 9 func.params
          (pick (callCandidates c8Module WasmType.i32).length
            (stepBump c8State)).2 = some (args, s3) ∧
        ((Expression.Call "f1" [] WasmType.i32,
          (⟨[], 1000, [], 0, [], 1⟩ : FuzzState)) : Expression × FuzzState) =
          (Expression.Call func.name args WasmType.i32, s3) ∧
        args.length = func.params.length) ∧
    ((Expression.Unreachable, (⟨[], 1000, [], 0, [], 1⟩ : FuzzState)) :
        Expression × FuzzState).1 = Expression.Unreachable ∧
    ((Expression.Unreachable, (⟨[], 1000, [], 0, [], 1⟩ : FuzzState)) :
        Expression × FuzzState).1 = Expression.Unreachable := by
  obtain ⟨hA, hB, hX⟩ := call_family_contract c8Module 9 WasmType.i32
    c8State c8EmptyState c8EmptyState
    (Expression.Call "f1" [] WasmType.i32, ⟨[], 1000, [], 0, [], 1⟩)
    (Expression.Unreachable, ⟨[], 1000, [], 0, [], 1⟩)
    (Expression.Unreachable, ⟨[], 1000, [], 0, [], 1⟩) rfl rfl rfl
  exact ⟨hA.2.2 rfl, hB.2.1 rfl, hX.1 rfl⟩

/-- C9.  The budget is per-pass, not per-function: the pass constructor
initializes the counter once to `LIMIT`; the per-function setup of
`doWalkFunction` (rescan the registry, zero the fresh-name counter) leaves
the budget counter and the draw stream untouched; and a function walk
changes the counter only by iterated wrapping decrements — it is never
reset. -/
theorem budget_per_pass (m : Module) (fuel : Nat) (body b1 : Expression)
    (ds : List Nat) (s s1 : FuzzState) :
    (initState ds).limit = LIMIT ∧
    (scanSetup body s).limit = s.limit ∧
    (scanSetup body s).draws = s.draws ∧
    (scanSetup body s).stack = s.stack ∧
    (scanSetup body s).names = labelsOf body ∧
    (scanSetup body s).nextName = 0 ∧
    (walk m fuel body s = some (b1, s1) →
      ∃ k, s1.limit = decWrapIter k s.limit) := by
  refine ⟨rfl, rfl, rfl, rfl, rfl, rfl, ?_⟩
  intro h
  exact ((walkEvolves m fuel).1 _ _ (b1, s1) h).2.2

/-- Witness for C9: a concrete one-node walk. -/
theorem budget_per_pass_witness :
    (initState []).limit = LIMIT ∧
    (scanSetup Expression.Nop c9State).limit = c9State.limit ∧
    (scanSetup Expression.Nop c9State).draws = c9State.draws ∧
    (scanSetup Expression.Nop c9State).stack = c9State.stack ∧
    (scanSetup Expression.Nop c9State).names = labelsOf Expression.Nop ∧
    (scanSetup Expression.Nop c9State).nextName = 0 ∧
    ∃ k, (⟨[], 1000, [], 0, [], 0⟩ : FuzzState).limit =
      decWrapIter k c9State.limit := by
  obtain ⟨a, b, c, d, e, f, g⟩ := budget_per_pass c9Module 10 Expression.Nop
    Expression.Nop [] c9State ⟨[], 1000, [], 0, [], 0⟩
  exact ⟨a, b, c, d, e, f, g rfl⟩

end wasm
